import Mathlib

/-!
Verification of the `wslgit` shim (`src/main.rs`).

The program forwards a `git` invocation from a Windows host into WSL.  Its
observable behaviour is pure given: the argument vector tail, the relevant
environment variables (`BASH_ENV`, `WSLENV`), and the child process's stdout
bytes and exit status.  We embed that behaviour shallowly:

* Rust `String` arguments are modelled as `List Char` (`translate_path_to_unix`,
  `shell_escape`);
* the child's stdout is modelled as a `List Nat` of byte values, since the
  output scan (`regex::bytes` with `(?m-u)`) works on raw bytes with no UTF-8
  requirement;
* the regex replacement `^/mnt/([A-Za-z])(/.*)$` (multi-line, `.` never
  matching `\n`) is embedded as: split the buffer on the byte 10, rewrite each
  newline-free segment, and rejoin with byte 10 (`translate_output`);
* `main`'s plumbing (mode selection, argument assembly, stdin policy, output
  policy, exit-code propagation) is the function `runShim`.
-/

namespace Wslgit

/-! ## Definitions -/

/-! ### Byte-level helpers (a Rust `u8` is modelled as `Nat`) -/

/-- Rust `u8::to_ascii_uppercase`: map byte values 97–122 down by 32. -/
def toAsciiUppercase (b : Nat) : Nat :=
  if 97 ≤ b ∧ b ≤ 122 then b - 32 else b

/-- The byte class `[A-Za-z]` of the output regex. -/
def isAsciiAlpha (b : Nat) : Bool :=
  (65 ≤ b && b ≤ 90) || (97 ≤ b && b ≤ 122)

/-! ### Splitting / joining a list on a separator

`splitSep sep` cuts a list at every occurrence of `sep` (the pieces do not
contain `sep`; `n` separators yield `n+1` pieces, possibly empty), and
`joinSep sep` re-inserts the separator.  These model both the multi-line
structure of the byte regex (separator byte 10) and Rust's
`str::split(':')` over `WSLENV`. -/

def splitSep {α : Type} [DecidableEq α] (sep : α) : List α → List (List α)
  | [] => [[]]
  | c :: r =>
    if c = sep then
      [] :: splitSep sep r
    else
      match splitSep sep r with
      | [] => [[c]]
      | l :: ls => (c :: l) :: ls

def joinSep {α : Type} (sep : α) : List (List α) → List α
  | [] => []
  | [l] => l
  | l :: l2 :: ls => l ++ sep :: joinSep sep (l2 :: ls)

/-! ### The output translator (`main`, lines 136–150)

`main` runs `Regex::new(r"(?m-u)^/mnt/([A-Za-z])(/.*)$").replace_all` over the
captured stdout bytes.  In that regex `.` matches any byte except `\n` (byte
10), `^`/`$` are line anchors, and Unicode is off, so every match covers one
entire newline-free segment that has the shape `/mnt/` (bytes 47 109 110 116
47), one `[A-Za-z]` byte, then `/` (47) and the remainder of the segment.  The
replacement closure emits the letter byte made ASCII-uppercase, then `:`
(byte 58), then capture 2 (which begins with the `/`, kept as `/`). -/

/-- One line (newline-free segment) of the `replace_all` scan. -/
def rewriteLine (l : List Nat) : List Nat :=
  match l with
  | a :: b :: c :: d :: e :: f :: g :: rest =>
    if a = 47 ∧ b = 109 ∧ c = 110 ∧ d = 116 ∧ e = 47 ∧ isAsciiAlpha f = true ∧ g = 47 then
      toAsciiUppercase f :: 58 :: 47 :: rest
    else l
  | _ => l

/-- The whole `replace_all` over a byte buffer: rewrite every `\n`-separated
segment independently. -/
def translate_output (b : List Nat) : List Nat :=
  joinSep 10 ((splitSep 10 b).map rewriteLine)

/-! ### The input translator (`translate_path_to_unix`, `main.rs` lines 11–32)

The Rust function first runs `arg.find(":\\")`, the BYTE index of the first
occurrence of the two-byte substring `:\`.  Both bytes are ASCII, and in UTF-8
an ASCII byte can only occur as a whole character, so the byte search is
faithfully computed over the character list, advancing by `Char.utf8Size` per
character.  The rewrite fires only when that index is exactly 1; then the
first character is lowercased (`char::to_lowercase`; the index-1 condition
forces that character to be a single ASCII byte, on which `Char.toLower`
agrees with Rust exactly) and every `\` in the remainder becomes `/`. -/

/-- Byte index of the first occurrence of the substring `":\\"`
(Rust `str::find(":\\")`). -/
def findColonBackslash : List Char → Option Nat
  | [] => none
  | [_] => none
  | c1 :: c2 :: rest =>
    if c1 = ':' ∧ c2 = '\\' then some 0
    else (findColonBackslash (c2 :: rest)).map (· + c1.utf8Size)

/-- `translate_path_to_unix` from `main.rs`, on the argument's characters. -/
def translate_path_to_unix (arg : List Char) : List Char :=
  match findColonBackslash arg with
  | none => arg
  | some index =>
    if index ≠ 1 then arg
    else
      match arg with
      | drive :: _ :: rest =>
        "/mnt/".data ++ drive.toLower :: rest.map (fun c => if c = '\\' then '/' else c)
      | _ => arg

/-- Decidable shape test: does the argument start with a one-byte character
followed by `:` and `\`?  This is exactly when `find(":\\") == Some(1)`. -/
def matchesColonBackslashAtOne : List Char → Bool
  | c :: ':' :: '\\' :: _ => c.utf8Size == 1
  | _ => false

/-! ### The `main` pipeline (`main.rs` lines 70–170)

`main`'s observable behaviour is a pure function of the invoker's argument
tail, the two environment variables it reads, and the child's stdout bytes and
exit status.  `runShim` computes, in the order of the source: the mode flag
`interactive_shell`, the `git_args` vector (with `translate_path_to_unix`,
and `shell_escape` in interactive mode), the joined `git_cmd` string, the
`cmd_args` handed to `wsl`, the stdin policy, the bytes written to host
stdout, and the shim's own exit status. -/

/-- `translate_path_to_unix` lifted back to `String`. -/
def translateArg (s : String) : String :=
  ⟨translate_path_to_unix s.data⟩

/-- `shell_escape` from `main.rs`: wrap in double quotes when the argument
contains a space; no other escaping. -/
def shell_escape (arg : String) : String :=
  if arg.data.contains ' ' then "\"" ++ arg ++ "\"" else arg

/-- Rust `str::eq_ignore_ascii_case`: equality after ASCII lowercasing
(`Char.toLower` lowercases exactly the ASCII letters). -/
def eqIgnoreAsciiCase (a b : List Char) : Bool :=
  a.map Char.toLower == b.map Char.toLower

/-- The two environment variables `main` reads. -/
structure Env where
  bashEnv : Option String
  wslenv : Option String

/-- Mode selection (`main.rs` lines 76–82): interactive by default; direct
iff `BASH_ENV` is set and some `:`-separated segment of `WSLENV` equals
`BASH_ENV` ASCII-case-insensitively (Rust
`split(':').position(|r| r.eq_ignore_ascii_case("BASH_ENV")).is_some()`,
modelled with `List.any`). -/
def interactiveShell (e : Env) : Bool :=
  match e.bashEnv with
  | none => true
  | some _ =>
    match e.wslenv with
    | none => true
    | some w =>
      !((splitSep ':' w.data).any fun seg => eqIgnoreAsciiCase seg "BASH_ENV".data)

/-- The subcommand denylist from `main.rs` line 131. -/
def NO_TRANSLATE : List String := ["show"]

/-- The condition of `main.rs` line 134:
`(git_args.len() == 1) || NO_TRANSLATE.iter().position(|&r| r == git_args[1]).is_none()`
(the `position(..).is_none()` is modelled with `List.any`).  When it holds the
captured stdout is passed through `translate_output`; otherwise the bytes are
written unaltered. -/
def usesTranslate (git_args : List String) : Bool :=
  (git_args.length == 1) || !(NO_TRANSLATE.any fun r => r == git_args.getD 1 "")

/-- What the shim observes of the child process. -/
structure ChildBehavior where
  stdout : List Nat
  exitCode : Option Int

/-- Everything observable about one run of the shim. -/
structure ShimResult where
  program : String
  gitArgs : List String
  gitCmd : String
  cmdArgs : List String
  stdinNull : Bool
  translated : Bool
  stdoutBytes : List Nat
  exitStatus : Int

/-- Rust `str::ends_with` on `String`s. -/
def strEndsWith (s suffix : String) : Bool :=
  suffix.data.isSuffixOf s.data

/-- Rust `Vec::join(" ")` over the argument strings. -/
def joinSpace (args : List String) : String :=
  ⟨joinSep ' ' (args.map String.data)⟩

/-- The whole of `main`, as a function of the argv tail, the environment and
the child's behaviour. -/
def runShim (e : Env) (argvTail : List String) (child : ChildBehavior) : ShimResult :=
  let interactive := interactiveShell e
  let git_args : List String :=
    "git" :: (if interactive
      then argvTail.map fun a => shell_escape (translateArg a)
      else argvTail.map translateArg)
  let git_cmd := joinSpace git_args
  let cmd_args := if interactive then ["bash", "-ic", git_cmd] else git_args
  let translated := usesTranslate git_args
  { program := "wsl"
    gitArgs := git_args
    gitCmd := git_cmd
    cmdArgs := cmd_args
    stdinNull := strEndsWith git_cmd "--version"
    translated := translated
    stdoutBytes := if translated then translate_output child.stdout else child.stdout
    exitStatus :=
      match child.exitCode with
      | some code => code
      | none => 0 }

/-! ## Theorems -/

/-! ### Split / join lemmas -/

theorem splitSep_ne_nil {α : Type} [DecidableEq α] (sep : α) (b : List α) :
    splitSep sep b ≠ [] := by
  induction b with
  | nil => simp [splitSep]
  | cons c r ih =>
    simp only [splitSep]
    split
    · simp
    · split
      · simp
      · simp

theorem mem_splitSep_not_sep {α : Type} [DecidableEq α] (sep : α) (b : List α) :
    ∀ l ∈ splitSep sep b, sep ∉ l := by
  induction b with
  | nil =>
    intro l hl
    simp [splitSep] at hl
    simp [hl]
  | cons c r ih =>
    intro l hl
    simp only [splitSep] at hl
    by_cases hc : c = sep
    · rw [if_pos hc, List.mem_cons] at hl
      rcases hl with rfl | hl
      · simp
      · exact ih l hl
    · rw [if_neg hc] at hl
      rcases hr : splitSep sep r with _ | ⟨l0, ls⟩
      · exact absurd hr (splitSep_ne_nil sep r)
      · simp only [hr, List.mem_cons] at hl
        rcases hl with rfl | hl
        · intro hmem
          rw [List.mem_cons] at hmem
          rcases hmem with hmem | hmem
          · exact hc hmem.symm
          · exact ih l0 (hr ▸ List.mem_cons_self _ _) hmem
        · exact ih l (hr ▸ List.mem_cons_of_mem _ hl)

theorem splitSep_of_not_mem {α : Type} [DecidableEq α] (sep : α) (l : List α)
    (h : sep ∉ l) : splitSep sep l = [l] := by
  induction l with
  | nil => simp [splitSep]
  | cons c t ih =>
    have hc : c ≠ sep := fun hcs => h (hcs ▸ List.mem_cons_self _ _)
    have ht : sep ∉ t := fun hts => h (List.mem_cons_of_mem _ hts)
    simp only [splitSep, if_neg hc, ih ht]

theorem splitSep_append {α : Type} [DecidableEq α] (sep : α) (l r : List α)
    (h : sep ∉ l) : splitSep sep (l ++ sep :: r) = l :: splitSep sep r := by
  induction l with
  | nil => simp [splitSep]
  | cons c t ih =>
    have hc : c ≠ sep := fun hcs => h (hcs ▸ List.mem_cons_self _ _)
    have ht : sep ∉ t := fun hts => h (List.mem_cons_of_mem _ hts)
    simp only [List.cons_append, splitSep, if_neg hc, List.append_eq]
    rw [ih ht]

theorem splitSep_joinSep {α : Type} [DecidableEq α] (sep : α) (ls : List (List α))
    (hne : ls ≠ []) (h : ∀ l ∈ ls, sep ∉ l) :
    splitSep sep (joinSep sep ls) = ls := by
  induction ls with
  | nil => exact absurd rfl hne
  | cons l ls' ih =>
    cases ls' with
    | nil =>
      simp only [joinSep]
      exact splitSep_of_not_mem sep l (h l (List.mem_cons_self _ _))
    | cons l2 ls'' =>
      simp only [joinSep]
      rw [splitSep_append sep l _ (h l (List.mem_cons_self _ _))]
      rw [ih (by simp) (fun x hx => h x (List.mem_cons_of_mem _ hx))]

/-! ### Line-rewrite lemmas -/

/-- Every application of `rewriteLine` either leaves the line alone or the
line had the full `/mnt/<letter>/` shape and is rewritten to
`<LETTER>:/...`. -/
theorem rewriteLine_cases (l : List Nat) :
    rewriteLine l = l ∨
      ∃ f rest, l = 47 :: 109 :: 110 :: 116 :: 47 :: f :: 47 :: rest ∧
        isAsciiAlpha f = true ∧
        rewriteLine l = toAsciiUppercase f :: 58 :: 47 :: rest := by
  unfold rewriteLine
  split
  · rename_i a b c d e f g rest
    split
    · rename_i hcond
      obtain ⟨ha, hb, hc, hd, he, hf, hg⟩ := hcond
      subst ha hb hc hd he hg
      exact Or.inr ⟨f, rest, rfl, hf, rfl⟩
    · exact Or.inl rfl
  · exact Or.inl rfl

/-- The translated form of a matching line starts with an uppercase letter. -/
theorem toAsciiUppercase_of_alpha {f : Nat} (hf : isAsciiAlpha f = true) :
    65 ≤ toAsciiUppercase f ∧ toAsciiUppercase f ≤ 90 := by
  simp only [isAsciiAlpha, Bool.or_eq_true, Bool.and_eq_true,
    decide_eq_true_eq] at hf
  unfold toAsciiUppercase
  split <;> omega

/-- A line whose first byte is not `/` is left unchanged. -/
theorem rewriteLine_of_head_ne (a : Nat) (t : List Nat) (h : a ≠ 47) :
    rewriteLine (a :: t) = a :: t := by
  unfold rewriteLine
  split
  · rename_i a' b c d e f g rest heq
    split
    · rename_i hcond
      obtain ⟨ha, -⟩ := hcond
      obtain ⟨rfl, -⟩ := List.cons.inj heq
      exact absurd ha h
    · rfl
  · rfl

/-- `rewriteLine` applied to an already-rewritten buffer line is the
identity. -/
theorem rewriteLine_idem (l : List Nat) :
    rewriteLine (rewriteLine l) = rewriteLine l := by
  rcases rewriteLine_cases l with h | ⟨f, rest, _, hf, h⟩
  · rw [h, h]
  · rw [h]
    have := toAsciiUppercase_of_alpha hf
    exact rewriteLine_of_head_ne _ _ (by omega)

/-- `rewriteLine` introduces no newline byte. -/
theorem rewriteLine_not_mem_nl (l : List Nat) (h : (10 : Nat) ∉ l) :
    (10 : Nat) ∉ rewriteLine l := by
  rcases rewriteLine_cases l with heq | ⟨f, rest, hl, hf, heq⟩
  · rw [heq]; exact h
  · rw [heq]
    have hup := toAsciiUppercase_of_alpha hf
    have hrest : (10 : Nat) ∉ rest := fun hr => h (by rw [hl]; simp [hr])
    simp only [List.mem_cons]
    push_neg
    exact ⟨by omega, by omega, by omega, hrest⟩

/-- The lines of the image of `splitSep 10` under `rewriteLine` still contain
no newline byte. -/
theorem map_rewriteLine_not_mem_nl (b : List Nat) :
    ∀ l ∈ (splitSep 10 b).map rewriteLine, (10 : Nat) ∉ l := by
  intro l hl
  rw [List.mem_map] at hl
  obtain ⟨l0, hl0, rfl⟩ := hl
  exact rewriteLine_not_mem_nl l0 (mem_splitSep_not_sep 10 b l0 hl0)

/-- `translate_output` acts line-by-line: on a buffer assembled from
newline-free lines it is exactly the map of `rewriteLine` over those lines. -/
theorem translate_output_joinSep (lines : List (List Nat))
    (hne : lines ≠ []) (hnl : ∀ l ∈ lines, (10 : Nat) ∉ l) :
    translate_output (joinSep 10 lines) = joinSep 10 (lines.map rewriteLine) := by
  unfold translate_output
  rw [splitSep_joinSep 10 lines hne hnl]

/-! ### Input-translator lemmas -/

theorem findColonBackslash_eq_zero {l : List Char}
    (h : findColonBackslash l = some 0) : ∃ rest, l = ':' :: '\\' :: rest := by
  match l with
  | [] => simp [findColonBackslash] at h
  | [c] => simp [findColonBackslash] at h
  | c1 :: c2 :: rest =>
    rw [findColonBackslash] at h
    split at h
    · rename_i hcond
      exact ⟨rest, by rw [hcond.1, hcond.2]⟩
    · rw [Option.map_eq_some'] at h
      obtain ⟨k, -, hk⟩ := h
      have := c1.utf8Size_pos
      omega

theorem findColonBackslash_eq_one {l : List Char}
    (h : findColonBackslash l = some 1) :
    ∃ c rest, l = c :: ':' :: '\\' :: rest ∧ c.utf8Size = 1 := by
  match l with
  | [] => simp [findColonBackslash] at h
  | [c] => simp [findColonBackslash] at h
  | c1 :: c2 :: rest =>
    rw [findColonBackslash] at h
    split at h
    · simp at h
    · rw [Option.map_eq_some'] at h
      obtain ⟨k, hfind, hk⟩ := h
      have hpos := c1.utf8Size_pos
      have hk0 : k = 0 := by omega
      have hsz : c1.utf8Size = 1 := by omega
      subst hk0
      obtain ⟨rest', hrest'⟩ := findColonBackslash_eq_zero hfind
      obtain ⟨rfl, rfl⟩ := List.cons.inj hrest'
      exact ⟨c1, rest', rfl, hsz⟩

theorem findColonBackslash_of_shape (c : Char) (rest : List Char) :
    findColonBackslash (c :: ':' :: '\\' :: rest) = some c.utf8Size := by
  have h2 : findColonBackslash (':' :: '\\' :: rest) = some 0 := by
    rw [findColonBackslash]
    simp
  rw [findColonBackslash]
  rw [if_neg (by rintro ⟨-, h⟩; exact absurd h (by decide))]
  rw [h2]
  simp

/-- The guarded rewrite, in closed form: on a `?:\...` argument whose first
character is a single byte, the result is `/mnt/`, the lowercased first
character, and the tail with every `\` turned into `/`. -/
theorem translate_path_to_unix_matched (c : Char) (rest : List Char)
    (hc : c.utf8Size = 1) :
    translate_path_to_unix (c :: ':' :: '\\' :: rest) =
      "/mnt/".data ++ c.toLower :: '/' ::
        rest.map (fun ch => if ch = '\\' then '/' else ch) := by
  rw [translate_path_to_unix, findColonBackslash_of_shape, hc]
  simp

/-- Arguments without the `:\`-at-byte-1 shape are returned unchanged. -/
theorem translate_path_to_unix_unmatched (l : List Char)
    (h : matchesColonBackslashAtOne l = false) :
    translate_path_to_unix l = l := by
  rw [translate_path_to_unix.eq_def]
  rcases hf : findColonBackslash l with _ | index
  · rfl
  · simp only []
    rcases eq_or_ne index 1 with rfl | hne
    · obtain ⟨c, rest, rfl, hsz⟩ := findColonBackslash_eq_one hf
      rw [matchesColonBackslashAtOne] at h
      rw [hsz] at h
      simp at h
    · rw [if_pos hne]

/-- An ASCII letter occupies one UTF-8 byte. -/
theorem utf8Size_one_of_isAlpha {c : Char} (h : c.isAlpha = true) :
    c.utf8Size = 1 := by
  have h' : c.val.toBitVec.toNat ≤ 122 := by
    simp only [Char.isAlpha, Char.isUpper, Char.isLower, Bool.or_eq_true, Bool.and_eq_true,
      decide_eq_true_eq, ge_iff_le] at h
    rcases h with ⟨-, h2⟩ | ⟨-, h2⟩ <;>
      (rw [UInt32.le_def, BitVec.le_def] at h2; simp at h2; omega)
  unfold Char.utf8Size
  rw [if_pos]
  rw [UInt32.le_def, BitVec.le_def]
  show _ ≤ (127 : Nat)
  omega

/-! ### `runShim` projection lemmas -/

theorem runShim_stdoutBytes (e : Env) (tail : List String) (child : ChildBehavior) :
    (runShim e tail child).stdoutBytes =
      if usesTranslate (runShim e tail child).gitArgs
      then translate_output child.stdout
      else child.stdout := rfl

theorem runShim_exitStatus (e : Env) (tail : List String) (child : ChildBehavior) :
    (runShim e tail child).exitStatus =
      match child.exitCode with
      | some code => code
      | none => 0 := rfl

/-- The output-policy flag, as a proposition about `git_args`. -/
theorem usesTranslate_eq_true_iff (ga : List String) :
    usesTranslate ga = true ↔ (ga.length = 1 ∨ ga.getD 1 "" ∉ NO_TRANSLATE) := by
  simp only [usesTranslate, NO_TRANSLATE, Bool.or_eq_true, beq_iff_eq,
    List.any_cons, List.any_nil, Bool.or_false, Bool.not_eq_true', Bool.not_eq_true,
    beq_eq_false_iff_ne, ne_eq, List.mem_singleton]
  constructor
  · rintro (h | h)
    · exact Or.inl h
    · exact Or.inr fun hmem => h hmem.symm
  · rintro (h | h)
    · exact Or.inl h
    · exact Or.inr fun hmem => h hmem.symm

/-! ## Claims -/

/-- C1 (counterexample): the claim asserts that `C:/a/b`, which matches the
drive-letter pattern with a `/` separator, is translated to `/mnt/c/a/b`.
The code only searches for the two-byte substring `:\`, so `C:/a/b` is
returned unchanged and is not `/mnt/c/a/b`. -/
theorem C1_counterexample :
    translate_path_to_unix "C:/a/b".data = "C:/a/b".data ∧
      "C:/a/b".data ≠ "/mnt/c/a/b".data := by
  decide

/-- C1 (amended): for every argument consisting of an ASCII letter, then `:`,
then `\`, then an arbitrary tail, `translate_path_to_unix` returns `/mnt/`,
the lowercased drive letter, and the tail starting at position 2 with every
`\` replaced by `/`; arguments using the `/` separator (such as `C:/a/b`)
are returned unchanged. -/
theorem C1_drive_letter_translation (c : Char) (rest : List Char)
    (h : c.isAlpha = true) :
    translate_path_to_unix (c :: ':' :: '\\' :: rest) =
      "/mnt/".data ++ c.toLower :: '/' ::
        rest.map (fun ch => if ch = '\\' then '/' else ch) := by
  exact translate_path_to_unix_matched c rest (utf8Size_one_of_isAlpha h)

/-- C1 (witness): `C:\a\b ↦ /mnt/c/a/b` and `c:\x ↦ /mnt/c/x`. -/
theorem C1_witness :
    translate_path_to_unix ('C' :: ':' :: '\\' :: "a\\b".data) = "/mnt/c/a/b".data ∧
      translate_path_to_unix ('c' :: ':' :: '\\' :: "x".data) = "/mnt/c/x".data :=
  ⟨(C1_drive_letter_translation 'C' "a\\b".data (by decide)).trans (by decide),
   (C1_drive_letter_translation 'c' "x".data (by decide)).trans (by decide)⟩

/-- C2 (counterexample): the claim asserts that with no subcommand at all the
child's stdout is passed through untranslated.  With an empty argv tail
`git_args = ["git"]` has length 1, yet the code takes the translating branch:
a child stdout of `/mnt/c/x` is rewritten to `C:/x`. -/
theorem C2_counterexample :
    (runShim ⟨none, none⟩ [] ⟨[47, 109, 110, 116, 47, 99, 47, 120], some 0⟩).gitArgs
        = ["git"] ∧
      (runShim ⟨none, none⟩ [] ⟨[47, 109, 110, 116, 47, 99, 47, 120], some 0⟩).stdoutBytes
        = [67, 58, 47, 120] ∧
      [67, 58, 47, 120] ≠ [47, 109, 110, 116, 47, 99, 47, 120] := by
  decide

/-- C2 (amended): the captured stdout is path-translated iff the git-argument
sequence has exactly one element (no subcommand) OR its element at index 1 is
not in `NO_TRANSLATE = ["show"]`; the bytes are passed through unaltered only
when a subcommand exists and is in `NO_TRANSLATE`. -/
theorem C2_output_policy (e : Env) (tail : List String) (child : ChildBehavior) :
    ((runShim e tail child).gitArgs.length = 1 ∨
        (runShim e tail child).gitArgs.getD 1 "" ∉ NO_TRANSLATE →
      (runShim e tail child).stdoutBytes = translate_output child.stdout) ∧
    ((runShim e tail child).gitArgs.length ≠ 1 ∧
        (runShim e tail child).gitArgs.getD 1 "" ∈ NO_TRANSLATE →
      (runShim e tail child).stdoutBytes = child.stdout) := by
  constructor
  · intro h
    rw [runShim_stdoutBytes,
      if_pos ((usesTranslate_eq_true_iff (runShim e tail child).gitArgs).mpr h)]
  · rintro ⟨h1, h2⟩
    have hfalse : usesTranslate (runShim e tail child).gitArgs = false := by
      rw [Bool.eq_false_iff]
      intro ht
      rcases (usesTranslate_eq_true_iff _).mp ht with h | h
      · exact h1 h
      · exact h h2
    rw [runShim_stdoutBytes, hfalse]
    simp

/-- C2 (witness): with subcommand `status` (not in `NO_TRANSLATE`) the
captured stdout goes through `translate_output`. -/
theorem C2_witness :
    (runShim ⟨none, none⟩ ["status"]
        ⟨[47, 109, 110, 116, 47, 99, 47, 120], some 0⟩).stdoutBytes =
      translate_output [47, 109, 110, 116, 47, 99, 47, 120] :=
  (C2_output_policy ⟨none, none⟩ ["status"]
    ⟨[47, 109, 110, 116, 47, 99, 47, 120], some 0⟩).1 (by decide)

/-- C3: the output translator works line-by-line over arbitrary byte values
(no UTF-8 requirement): a buffer joined from newline-free lines is translated
by rewriting each line independently; a line of the exact shape
`/mnt/<letter>/<tail>` becomes `<LETTER>:` followed by the tail with its
forward slashes retained, and every line not of that shape is left
unchanged. -/
theorem C3_output_translator (lines : List (List Nat)) (hne : lines ≠ [])
    (hnl : ∀ l ∈ lines, (10 : Nat) ∉ l) (c : Nat) (rest l : List Nat)
    (hc : isAsciiAlpha c = true) :
    translate_output (joinSep 10 lines) = joinSep 10 (lines.map rewriteLine) ∧
      rewriteLine (47 :: 109 :: 110 :: 116 :: 47 :: c :: 47 :: rest)
        = toAsciiUppercase c :: 58 :: 47 :: rest ∧
      ((¬ ∃ c2 rest2, l = 47 :: 109 :: 110 :: 116 :: 47 :: c2 :: 47 :: rest2 ∧
          isAsciiAlpha c2 = true) → rewriteLine l = l) := by
  refine ⟨translate_output_joinSep lines hne hnl, ?_, ?_⟩
  · rw [rewriteLine]
    rw [if_pos ⟨rfl, rfl, rfl, rfl, rfl, hc, rfl⟩]
  · intro hno
    rcases rewriteLine_cases l with h | ⟨f, rest2, hl, hf, -⟩
    · exact h
    · exact absurd ⟨f, rest2, hl, hf⟩ hno

/-- C3 (witness): the single line `/mnt/d/y` becomes `D:/y`, and the line
`M ` (not starting with `/mnt/<letter>/`) is untouched. -/
theorem C3_witness :
    translate_output (joinSep 10 [[47, 109, 110, 116, 47, 100, 47, 121]])
        = joinSep 10 ([[47, 109, 110, 116, 47, 100, 47, 121]].map rewriteLine) ∧
      rewriteLine (47 :: 109 :: 110 :: 116 :: 47 :: 100 :: 47 :: [121])
        = toAsciiUppercase 100 :: 58 :: 47 :: [121] ∧
      ((¬ ∃ c2 rest2, [77, 32] = 47 :: 109 :: 110 :: 116 :: 47 :: c2 :: 47 :: rest2 ∧
          isAsciiAlpha c2 = true) → rewriteLine [77, 32] = [77, 32]) :=
  C3_output_translator [[47, 109, 110, 116, 47, 100, 47, 121]] (by decide)
    (by decide) 100 [121] [77, 32] (by decide)

/-- C4 (counterexample): the claim asserts the translator is the identity on
every string not matching `^[A-Za-z]:[\\/]`, in particular on strings whose
first character is not an ASCII letter.  But `1:\x` (first character the
digit `1`) is rewritten to `/mnt/1/x`: the code never checks that the
character before `:\` is a letter. -/
theorem C4_counterexample :
    translate_path_to_unix "1:\\x".data = "/mnt/1/x".data ∧
      translate_path_to_unix "1:\\x".data ≠ "1:\\x".data := by
  decide

/-- C4 (amended): `translate_path_to_unix` is the identity on every string
that does not start with a one-byte character followed by `:` and `\` (i.e.
whose first occurrence of `:\` is not at byte index 1).  This covers UNC
paths, relative paths with backslashes, a bare `C:`, and also `C:/a/b`; but
strings like `1:\x` whose first character is not a letter ARE rewritten. -/
theorem C4_identity_off_pattern (s : List Char)
    (h : matchesColonBackslashAtOne s = false) :
    translate_path_to_unix s = s := by
  exact translate_path_to_unix_unmatched s h

/-- C4 (witness): boundary identity cases from the spec. -/
theorem C4_witness :
    translate_path_to_unix "C:".data = "C:".data ∧
      translate_path_to_unix "\\\\server\\share".data = "\\\\server\\share".data ∧
      translate_path_to_unix "sub\\file".data = "sub\\file".data :=
  ⟨C4_identity_off_pattern "C:".data (by decide),
   C4_identity_off_pattern "\\\\server\\share".data (by decide),
   C4_identity_off_pattern "sub\\file".data (by decide)⟩

/-- C5: the child's stdin is null iff the assembled git command line ends
with the literal suffix `--version`; otherwise stdin is inherited.  Stated
both as the exact boolean computed by the code and as the suffix relation on
the command line's characters. -/
theorem C5_stdin_policy (e : Env) (tail : List String) (child : ChildBehavior) :
    (runShim e tail child).stdinNull
        = strEndsWith (runShim e tail child).gitCmd "--version" ∧
      ((runShim e tail child).stdinNull = true ↔
        "--version".data <:+ ((runShim e tail child).gitCmd).data) := by
  refine ⟨rfl, ?_⟩
  show strEndsWith _ _ = true ↔ _
  rw [strEndsWith, List.isSuffixOf_iff_suffix]
  exact Iff.rfl

/-- C6: interactive mode is the default; direct mode is selected iff
`BASH_ENV` is defined and `WSLENV` is defined with a `:`-separated segment
equal to `BASH_ENV` up to ASCII case.  In particular `BASH_ENV` alone stays
interactive, `WSLENV` containing only `OTHER` stays interactive, and a
lowercase `bash_env` segment selects direct mode. -/
theorem C6_mode_selection :
    (∀ e : Env, interactiveShell e = false ↔
      (e.bashEnv.isSome = true ∧ ∃ w, e.wslenv = some w ∧
        ∃ seg ∈ splitSep ':' w.data, eqIgnoreAsciiCase seg "BASH_ENV".data = true)) ∧
      interactiveShell ⟨some "/x", none⟩ = true ∧
      interactiveShell ⟨some "/x", some "OTHER"⟩ = true ∧
      interactiveShell ⟨some "/x", some "bash_env"⟩ = false := by
  refine ⟨?_, by decide, by decide, by decide⟩
  rintro ⟨be, we⟩
  cases be <;> cases we <;>
    simp [interactiveShell, List.any_eq_true]

/-- C7: whenever the child exits with a numeric code, the shim's own exit
status is exactly that code. -/
theorem C7_exit_code_propagation (e : Env) (tail : List String)
    (child : ChildBehavior) (code : Int) (h : child.exitCode = some code) :
    (runShim e tail child).exitStatus = code := by
  rw [runShim_exitStatus, h]

/-- C7 (witness): a child exit code of 3 is propagated. -/
theorem C7_witness :
    (runShim ⟨none, none⟩ [] ⟨[], some 3⟩).exitStatus = 3 :=
  C7_exit_code_propagation ⟨none, none⟩ [] ⟨[], some 3⟩ 3 rfl

/-- C8: on the passthrough path the bytes written to host stdout are the
child's stdout byte-for-byte. -/
theorem C8_passthrough_verbatim (e : Env) (tail : List String)
    (child : ChildBehavior) (h : (runShim e tail child).translated = false) :
    (runShim e tail child).stdoutBytes = child.stdout := by
  have hb : (runShim e tail child).translated
      = usesTranslate (runShim e tail child).gitArgs := rfl
  rw [runShim_stdoutBytes, ← hb, h]
  simp

/-- C8 (witness): `git show` on a binary blob (bytes 255, 0, 10 — not valid
UTF-8) is emitted unaltered. -/
theorem C8_witness :
    (runShim ⟨none, none⟩ ["show", "HEAD:binary.bin"]
        ⟨[255, 0, 10], some 0⟩).stdoutBytes = [255, 0, 10] :=
  C8_passthrough_verbatim ⟨none, none⟩ ["show", "HEAD:binary.bin"]
    ⟨[255, 0, 10], some 0⟩ (by decide)

/-- C9: the output translator is idempotent — applying the line-anchored
`/mnt/<letter>/` rewrite twice equals applying it once (a rewritten line
starts with an uppercase letter, never with `/mnt/`). -/
theorem C9_translate_output_idempotent (b : List Nat) :
    translate_output (translate_output b) = translate_output b := by
  have hne : (splitSep 10 b).map rewriteLine ≠ [] := by
    intro h
    exact splitSep_ne_nil 10 b (List.map_eq_nil_iff.mp h)
  have h1 : translate_output b = joinSep 10 ((splitSep 10 b).map rewriteLine) := rfl
  rw [h1, translate_output_joinSep _ hne (map_rewriteLine_not_mem_nl b), List.map_map]
  congr 1
  exact List.map_congr_left (fun l _ => rewriteLine_idem l)

/-- C10: when the child terminates without a numeric exit code, `main` falls
through the `if let Some(exit_code)` check and returns normally, so the shim
exits with status 0. -/
theorem C10_no_code_exits_zero (e : Env) (tail : List String)
    (child : ChildBehavior) (h : child.exitCode = none) :
    (runShim e tail child).exitStatus = 0 := by
  rw [runShim_exitStatus, h]

/-- C10 (witness): a signal-killed child (no exit code) yields shim status 0. -/
theorem C10_witness :
    (runShim ⟨none, none⟩ [] ⟨[], none⟩).exitStatus = 0 :=
  C10_no_code_exits_zero ⟨none, none⟩ [] ⟨[], none⟩ rfl

end Wslgit
